import Mathlib

/-
Verification of the URL-shortener engine (mongo-backed `UrlShortener` class,
file url-shortener.js) against its natural-language specification.

The engine code is embedded shallowly: JS strings become `List Char`, the
mongo collection of association documents becomes a `List Assoc` in insertion
order (`findOne` scans in order, `insertOne` appends, `updateOne` rewrites the
first matching document), and each `async` engine method becomes a pure
function from input and store to a result plus the new store.  The method
`add` contains a genuine slip on its DOMAIN path: it invokes `this.setErrMsg`
while the class defines only `_setErrMsg`, so that path raises a TypeError
instead of returning an error object; the embedding records this outcome as
`Res.thrown`.
-/

namespace UrlShort

/-- JS String.prototype.toLowerCase restricted to ASCII, applied charwise. -/
def lowerStr (cs : List Char) : List Char := cs.map Char.toLower

/-- Index of the first occurrence of character a (JS String.indexOf for a
single character), as an Option instead of the -1 convention. -/
def idxOf? (a : Char) : List Char → Option Nat
  | [] => none
  | c :: cs => if c = a then some 0 else (idxOf? a cs).map (· + 1)

/-- Index of the first occurrence of the pattern as a contiguous substring
(JS String.indexOf for a string), as an Option instead of -1. -/
def indexOfSub (pat : List Char) : List Char → Option Nat
  | [] => if pat = [] then some 0 else none
  | c :: cs =>
    if pat.isPrefixOf (c :: cs) then some 0
    else (indexOfSub pat (c :: cs).tail).map (· + 1)

/-- The separator "://" that getUrlParts searches for. -/
def sepStr : List Char := [':', '/', '/']

/-- ASCII whitespace skipped by JS parseInt. -/
def isJsSpace (c : Char) : Bool :=
  c = ' ' || c = '\t' || c = '\n' || c = '\r' || c = '\x0b' || c = '\x0c'

def isDigit (c : Char) : Bool := '0' ≤ c && c ≤ '9'

def isHexDigit (c : Char) : Bool :=
  isDigit c || ('a' ≤ c && c ≤ 'f') || ('A' ≤ c && c ≤ 'F')

def hexVal (c : Char) : Nat :=
  if '0' ≤ c && c ≤ '9' then c.toNat - '0'.toNat
  else if 'a' ≤ c && c ≤ 'f' then c.toNat - 'a'.toNat + 10
  else if 'A' ≤ c && c ≤ 'F' then c.toNat - 'A'.toNat + 10
  else 0

def digitsVal (radix : Nat) (ds : List Char) : Nat :=
  ds.foldl (fun a c => a * radix + hexVal c) 0

/-- JS parseInt(s) with radix argument omitted: skip leading whitespace, read
an optional sign, detect a 0x/0X hexadecimal prefix, then consume the maximal
run of digits of the selected radix; none models the NaN result. -/
def jsParseInt (cs : List Char) : Option Int :=
  let cs1 := cs.dropWhile isJsSpace
  let signed : Int × List Char :=
    match cs1 with
    | '-' :: rest => (-1, rest)
    | '+' :: rest => (1, rest)
    | _ => (1, cs1)
  let hexed : Nat × List Char :=
    match signed.2 with
    | '0' :: 'x' :: rest => (16, rest)
    | '0' :: 'X' :: rest => (16, rest)
    | _ => (10, signed.2)
  let ds := hexed.2.takeWhile (fun c => if hexed.1 = 16 then isHexDigit c else isDigit c)
  if ds.isEmpty then none else some (signed.1 * (digitsVal hexed.1 ds : Int))

/-- Character class of the regex [a-zA-Z0-9.-] used by validateBase. -/
def isBaseChar (c : Char) : Bool :=
  ('a' ≤ c && c ≤ 'z') || ('A' ≤ c && c ≤ 'Z') || ('0' ≤ c && c ≤ '9') ||
  c = '.' || c = '-'

/-- JS String.prototype.split('.'): note "".split yields [""]. -/
def splitOnDot : List Char → List (List Char)
  | [] => [[]]
  | c :: cs =>
    if c = '.' then [] :: splitOnDot cs
    else
      match splitOnDot cs with
      | [] => [[c]]
      | p :: ps => (c :: p) :: ps

/-- The per-label test of validateBase: the anchored regex [a-zA-Z0-9.-]+
must accept the label and the label must not start or end with a hyphen
(part[0] and part[part.length-1] compared against the hyphen character). -/
def validLabel (l : List Char) : Bool :=
  !l.isEmpty && l.all isBaseChar && !(l.headD ' ' = '-') && !(l.getLastD ' ' = '-')

/-- Faithful translation of validateBase from url-shortener.js: an optional
port after the first colon must parseInt to a value in [1, 65535], every
dot-separated label of the host part must pass the label test, and the whole
base must be shorter than 254 characters. -/
def validateBase (b : List Char) : Bool :=
  (match idxOf? ':' b with
   | none => true
   | some i =>
     match jsParseInt (b.drop (i + 1)) with
     | none => false
     | some n => decide (1 ≤ n) && decide (n < 65536)) &&
  (splitOnDot (b.take ((idxOf? ':' b).getD b.length))).all validLabel &&
  decide (b.length < 254)

/-- Result of a successful getUrlParts call (the error field of the JS object
is modelled by getUrlParts returning an Option). -/
structure UrlParts where
  scheme : List Char
  base : List Char
  domain : List Char
  rest : Option (List Char)
  baseRest : List Char
deriving Repr, DecidableEq

/-- Faithful translation of getUrlParts from url-shortener.js.  none models
the URL_SYNTAX error object.  The JS checks ind0 === 2 (no "://" found),
ind0 === 3 (the string starts with "://"), url.length === ind0 (nothing after
the separator) and url[ind0] === '/'; otherwise it lower-cases the scheme and
the text after the separator, splits off the base at the first '/', validates
the base, and takes the domain as the base up to the first ':'. -/
def getUrlParts (url : List Char) : Option UrlParts :=
  match indexOfSub sepStr url with
  | none => none
  | some idx =>
    if idx = 0 then none
    else if url.length = idx + 3 then none
    else if url.get? (idx + 3) = some '/' then none
    else
      let scheme := lowerStr (url.take idx)
      let after := url.drop (idx + 3)
      let baseRest := lowerStr after
      let basePr : List Char × Option (List Char) :=
        match idxOf? '/' after with
        | none => (baseRest, none)
        | some i1 => (lowerStr (after.take i1), some (after.drop i1))
      if !validateBase basePr.1 then none
      else
        some { scheme := scheme, base := basePr.1,
               domain := basePr.1.take ((idxOf? ':' basePr.1).getD basePr.1.length),
               rest := basePr.2, baseRest := baseRest }

/-- getUrlParts followed by validateScheme: the regex is tested against the
already lower-cased scheme, and a mismatch yields the same URL_SYNTAX error. -/
def parseUrl (allowed : List Char → Bool) (url : List Char) : Option UrlParts :=
  match getUrlParts url with
  | none => none
  | some p => if allowed p.scheme then some p else none

/-- The anchored regex ^https?$ applied to the lower-cased scheme. -/
def httpScheme (s : List Char) : Bool :=
  decide (s = "http".data) || decide (s = "https".data)

/-- The anchored regex ^mongodb$ used by the factory for the store URL. -/
def mongoScheme (s : List Char) : Bool := decide (s = "mongodb".data)

/-- An association document as stored in the urlInfo collection. -/
structure Assoc where
  longUrl : List Char
  shortUrl : List Char
  active : Bool
  queries : Nat
deriving Repr, DecidableEq

/-- The urlInfo collection, in insertion order. -/
abbrev Store := List Assoc

/-- The first document matching longUrl or shortUrl, as in _queryDb, which
runs findOne on an $or filter over the two key fields. -/
def findDb (key : List Char) (s : Store) : Option Assoc :=
  s.find? (fun r => decide (r.longUrl = key) || decide (r.shortUrl = key))

/-- updateOne semantics: rewrite the first document satisfying the filter,
leave everything else in place. -/
def updateFirst (p : Assoc → Bool) (f : Assoc → Assoc) : Store → Store
  | [] => []
  | r :: rs => if p r then f r :: rs else r :: updateFirst p f rs

/-- Engine outcomes: a value object, the empty success object, an error
object carrying its code, or an exception escaping the method. -/
inductive Res where
  | value (v : List Char)
  | num (n : Nat)
  | empty
  | err (code : List Char)
  | thrown
deriving Repr, DecidableEq

def eSyn : List Char := "URL_SYNTAX".data
def eDom : List Char := "DOMAIN".data
def eNF : List Char := "NOT_FOUND".data

/-- add(longUrl).  B is this.SHORTENER_BASE and tok stands for the token
produced by Math.floor(Math.random()*2**32).toString(36), supplied as an
oracle so that the random draw is explicit.  On the DOMAIN branch the source
calls this.setErrMsg, a method that does not exist (the class defines only
_setErrMsg), so that branch raises a TypeError; the embedding returns
Res.thrown there.  Otherwise: a found document is reactivated and its stored
shortUrl returned, and a missing one is inserted with queries 0. -/
def addOp (B tok : List Char) (longUrl : List Char) (s : Store) : Res × Store :=
  match parseUrl httpScheme longUrl with
  | none => (.err eSyn, s)
  | some p =>
    if p.domain = B then (.thrown, s)
    else
      match findDb p.baseRest s with
      | some r =>
        (.value (p.scheme ++ sepStr ++ r.shortUrl),
         updateFirst (fun a => decide (a = r)) (fun a => { a with active := true }) s)
      | none =>
        let newUrl := B ++ '/' :: tok
        (.value (p.scheme ++ sepStr ++ newUrl),
         s ++ [{ longUrl := p.baseRest, shortUrl := newUrl, active := true, queries := 0 }])

/-- query(shortUrl): DOMAIN when the parsed domain differs from the base,
NOT_FOUND when no document matches or the match is inactive, otherwise
increment the queries counter of the matched document and return the scheme
of the submitted url glued to the stored longUrl. -/
def queryOp (B : List Char) (shortUrl : List Char) (s : Store) : Res × Store :=
  match parseUrl httpScheme shortUrl with
  | none => (.err eSyn, s)
  | some p =>
    if ¬ (p.domain = B) then (.err eDom, s)
    else
      match findDb p.baseRest s with
      | none => (.err eNF, s)
      | some r =>
        if !r.active then (.err eNF, s)
        else
          (.value (p.scheme ++ sepStr ++ r.longUrl),
           updateFirst (fun a => decide (a = r)) (fun a => { a with queries := a.queries + 1 }) s)

/-- count(url): no domain test and no activity test; returns the stored
queries counter of the first document matching either key. -/
def countOp (_B : List Char) (url : List Char) (s : Store) : Res × Store :=
  match parseUrl httpScheme url with
  | none => (.err eSyn, s)
  | some p =>
    match findDb p.baseRest s with
    | none => (.err eNF, s)
    | some r => (.num r.queries, s)

/-- deactivate(url): NOT_FOUND when nothing matches, otherwise set active to
false unconditionally and return the empty success object. -/
def deactivateOp (_B : List Char) (url : List Char) (s : Store) : Res × Store :=
  match parseUrl httpScheme url with
  | none => (.err eSyn, s)
  | some p =>
    match findDb p.baseRest s with
    | none => (.err eNF, s)
    | some r =>
      (.empty,
       updateFirst (fun a => decide (a = r)) (fun a => { a with active := false }) s)

/-- The character class of URL_RE in ws.js:
[\w\-\/\.\?\=\&\%\#\@\+\~] where \w is [A-Za-z0-9_]. -/
def urlChar (c : Char) : Bool :=
  ('a' ≤ c && c ≤ 'z') || ('A' ≤ c && c ≤ 'Z') || ('0' ≤ c && c ≤ '9') ||
  c = '_' || c = '-' || c = '/' || c = '.' || c = '?' || c = '=' ||
  c = '&' || c = '%' || c = '#' || c = '@' || c = '+' || c = '~'

/-- Case-insensitive prefix test (the i flag of URL_RE); the pattern is given
in lower case. -/
def ciPrefixOf : List Char → List Char → Bool
  | [], _ => true
  | _ :: _, [] => false
  | p :: ps, c :: cs => decide (c.toLower = p) && ciPrefixOf ps cs

/-- Length of the URL_RE match starting exactly here, if any: https?://
followed by at least one character of the class, matched greedily.  The s of
https? cannot backtrack into a successful http:// match because that would
require the fifth character to be both s and a colon. -/
def urlMatchLen (cs : List Char) : Option Nat :=
  if ciPrefixOf "https://".data cs then
    let run := ((cs.drop 8).takeWhile urlChar).length
    if run = 0 then none else some (8 + run)
  else if ciPrefixOf "http://".data cs then
    let run := ((cs.drop 7).takeWhile urlChar).length
    if run = 0 then none else some (7 + run)
  else none

/-- htmlEscape as a per-character map: the four sequential global replaces of
ws.js touch disjoint characters and never rescan their own output, so they
amount to this single map over the original characters. -/
def escChar (c : Char) : List Char :=
  if c = '&' then "&amp;".data
  else if c = '<' then "&lt;".data
  else if c = '>' then "&gt;".data
  else if c = '"' then "&quot;".data
  else [c]

def htmlEscape (isHtml : Bool) (cs : List Char) : List Char :=
  if isHtml then (cs.map escChar).flatten else cs

/-- The anchor written around a replacement when isHtml is set. -/
def anchorTag (v : List Char) : List Char :=
  "<a href=\"".data ++ v ++ "\">".data ++ v ++ "</a>".data

/-- The JS of doTextShorten reads result.value off whatever add returned; on
an error object that property is undefined and += renders it as the string
undefined, while a thrown error is caught and the original match kept. -/
def substFor (isHtml : Bool) (url : List Char) : Res → List Char
  | .value v => if isHtml then anchorTag v else v
  | .thrown => if isHtml then anchorTag url else url
  | _ => if isHtml then anchorTag "undefined".data else "undefined".data

/-- The scan loop of doTextShorten, fuelled by the input length: at each
position the earliest URL_RE match is replaced through add (threading the
store and the token oracle, a token being consumed only when add inserts) and
unmatched characters are copied through htmlEscape. -/
def translateGo (B : List Char) (isHtml : Bool) :
    Nat → List Char → Store → List (List Char) →
    List Char × Store × List (List Char)
  | _, [], s, toks => ([], s, toks)
  | 0, cs, s, toks => (htmlEscape isHtml cs, s, toks)
  | fuel + 1, c :: cs, s, toks =>
    match urlMatchLen (c :: cs) with
    | some n =>
      let url := (c :: cs).take n
      let rs := addOp B (toks.headD []) url s
      let toks1 := if rs.2.length = s.length then toks else toks.tail
      let rec1 := translateGo B isHtml fuel ((c :: cs).drop n) rs.2 toks1
      (substFor isHtml url rs.1 ++ rec1.1, rec1.2.1, rec1.2.2)
    | none =>
      let rec1 := translateGo B isHtml fuel cs s toks
      (htmlEscape isHtml [c] ++ rec1.1, rec1.2.1, rec1.2.2)

/-- translate over a whole text: the fuel equals the text length, which
suffices because every loop step consumes at least one character. -/
def translateOp (B : List Char) (isHtml : Bool) (text : List Char)
    (s : Store) (toks : List (List Char)) : List Char × Store :=
  let r := translateGo B isHtml text.length text s toks
  (r.1, r.2.1)

/-- One association per distinct normalized long URL: the longUrl keys of the
store are pairwise distinct. -/
def uniqLong (s : Store) : Prop := (s.map (fun a => a.longUrl)).Nodup

/-- Strict reading of the spec words: the port suffix parses as an integer,
meaning the whole suffix is a nonempty string of decimal digits. -/
def strictNat? (cs : List Char) : Option Nat :=
  if !cs.isEmpty && cs.all isDigit then some (digitsVal 10 cs) else none

/-- The label condition as the spec states it: the label matches the pattern
of one or more characters from [a-zA-Z0-9.-] and neither starts nor ends with
a hyphen. -/
def specValidLabel (l : List Char) : Bool :=
  !l.isEmpty && l.all isBaseChar && !(l.headD ' ' = '-') && !(l.getLastD ' ' = '-')

/-- The spec sentence for base validation, read literally: split the host
(the part before any colon) by dots, check every label, require any port
suffix to parse as an integer in [1, 65535], and require total length below
254. -/
def specValidBase (b : List Char) : Bool :=
  (splitOnDot (b.take ((idxOf? ':' b).getD b.length))).all specValidLabel &&
  (match idxOf? ':' b with
   | none => true
   | some i =>
     match strictNat? (b.drop (i + 1)) with
     | none => false
     | some n => decide (1 ≤ n) && decide (n ≤ 65535)) &&
  decide (b.length < 254)

/-- The amended spec sentence: identical to specValidBase except that the
port suffix is interpreted through JS parseInt, so leading whitespace, a
sign, a hexadecimal prefix and trailing garbage after a digit prefix are all
tolerated the way the code tolerates them. -/
def amendedValidBase (b : List Char) : Bool :=
  (splitOnDot (b.take ((idxOf? ':' b).getD b.length))).all specValidLabel &&
  (match idxOf? ':' b with
   | none => true
   | some i =>
     match jsParseInt (b.drop (i + 1)) with
     | none => false
     | some n => decide (1 ≤ n) && decide (n ≤ 65535)) &&
  decide (b.length < 254)

/-- The base the spec speaks about for a url whose separator sits at idx: the
host[:port] part, that is the text between the separator and the first slash,
lower-cased as the parser normalizes it. -/
def specBaseOf (url : List Char) (idx : Nat) : List Char :=
  match idxOf? '/' (url.drop (idx + 3)) with
  | none => lowerStr (url.drop (idx + 3))
  | some i1 => lowerStr ((url.drop (idx + 3)).take i1)

/-- The URL_SYNTAX condition exactly as the spec enumerates it: no separator,
or nothing after it, or a slash right after it, or a disallowed scheme, or an
invalid base. -/
def specSyntaxFail (allowed : List Char → Bool) (url : List Char) : Bool :=
  match indexOfSub sepStr url with
  | none => true
  | some idx =>
    decide (url.length = idx + 3) ||
    decide (url.get? (idx + 3) = some '/') ||
    !allowed (lowerStr (url.take idx)) ||
    !validateBase (specBaseOf url idx)

section Lemmas

/-- Decomposition of a successful find?: the store splits around the found
document, the filter fails on everything before it, and updateOne keyed on
the full found document rewrites exactly that position. -/
theorem find?_decomp {p : Assoc → Bool} {s : Store} {r : Assoc} (f : Assoc → Assoc)
    (h : s.find? p = some r) :
    ∃ pre post, s = pre ++ r :: post ∧ (∀ a ∈ pre, p a = false) ∧
      updateFirst (fun a => decide (a = r)) f s = pre ++ f r :: post := by
  induction s with
  | nil => simp [List.find?] at h
  | cons a s ih =>
    by_cases hp : p a
    · rw [List.find?_cons_of_pos _ hp] at h
      obtain rfl : a = r := by injection h
      exact ⟨[], s, rfl, by simp, by simp [updateFirst]⟩
    · rw [List.find?_cons_of_neg _ hp] at h
      obtain ⟨pre, post, hs, hpre, hup⟩ := ih h
      have hr : p r = true := List.find?_some h
      have har : ¬ (a = r) := fun he => hp (he ▸ hr)
      refine ⟨a :: pre, post, by simp [hs], ?_, ?_⟩
      · intro x hx
        rcases List.mem_cons.mp hx with rfl | hx
        · exact Bool.not_eq_true _ ▸ Bool.of_not_eq_true hp
        · exact hpre x hx
      · simp [updateFirst, har, hup]

/-- find? over a middle decomposition: everything before fails the filter and
the middle element satisfies it. -/
theorem find?_middle {q : Assoc → Bool} {pre post : Store} {b : Assoc}
    (hpre : ∀ a ∈ pre, q a = false) (hb : q b = true) :
    (pre ++ b :: post).find? q = some b := by
  induction pre with
  | nil => simp [List.find?_cons_of_pos _ hb]
  | cons a pre ih =>
    have ha : ¬ q a = true := by
      have := hpre a (by simp)
      simp [this]
    simpa [List.find?_cons_of_neg _ ha] using
      ih (fun x hx => hpre x (List.mem_cons_of_mem _ hx))

theorem updateFirst_length (p : Assoc → Bool) (f : Assoc → Assoc) (s : Store) :
    (updateFirst p f s).length = s.length := by
  induction s with
  | nil => rfl
  | cons a s ih => by_cases hp : p a <;> simp [updateFirst, hp, ih]

/-- Any projection invariant under the rewriting function is invariant under
updateOne over the whole store. -/
theorem updateFirst_map {α : Type} (g : Assoc → α) (p : Assoc → Bool)
    (f : Assoc → Assoc) (h : ∀ a, g (f a) = g a) (s : Store) :
    (updateFirst p f s).map g = s.map g := by
  induction s with
  | nil => rfl
  | cons a s ih => by_cases hp : p a <;> simp [updateFirst, hp, ih, h]

theorem lowerStr_append (l₁ l₂ : List Char) :
    lowerStr (l₁ ++ l₂) = lowerStr l₁ ++ lowerStr l₂ := List.map_append ..

theorem lowerStr_cons (c : Char) (l : List Char) :
    lowerStr (c :: l) = c.toLower :: lowerStr l := rfl

theorem idxOf?_eq_none {a : Char} {l : List Char} (h : a ∉ l) :
    idxOf? a l = none := by
  induction l with
  | nil => rfl
  | cons c cs ih =>
    have hca : ¬ (c = a) := fun he => h (he ▸ List.mem_cons_self c cs)
    simp only [idxOf?, if_neg hca, ih (fun hm => h (List.mem_cons_of_mem _ hm))]
    rfl

theorem idxOf?_append_cons {a : Char} {l : List Char} (t : List Char) (h : a ∉ l) :
    idxOf? a (l ++ a :: t) = some l.length := by
  induction l with
  | nil => simp [idxOf?]
  | cons c cs ih =>
    have hca : ¬ (c = a) := fun he => h (he ▸ List.mem_cons_self c cs)
    simp only [List.cons_append, idxOf?, if_neg hca, List.append_eq,
      ih (fun hm => h (List.mem_cons_of_mem _ hm)), List.length_cons]
    rfl

theorem indexOfSub_sep_concat (sch rest : List Char) (h : ':' ∉ sch) :
    indexOfSub sepStr (sch ++ sepStr ++ rest) = some sch.length := by
  induction sch with
  | nil =>
    have : sepStr.isPrefixOf (sepStr ++ rest) = true :=
      List.isPrefixOf_iff_prefix.mpr (List.prefix_append _ _)
    simp only [List.nil_append]
    show indexOfSub sepStr (':' :: '/' :: '/' :: rest) = some 0
    simp only [indexOfSub]
    rw [if_pos]
    exact this
  | cons c cs ih =>
    have hc : ¬ (c = ':') := fun he => h (he ▸ List.mem_cons_self c cs)
    have hnp : sepStr.isPrefixOf (c :: (cs ++ sepStr ++ rest)) = false := by
      show ((':' == c) && _) = false
      have : (':' == c) = false := by
        simp [beq_iff_eq]
        exact fun he => hc he.symm
      simp [this]
    simp only [List.cons_append, indexOfSub, List.append_eq, hnp, Bool.false_eq_true,
      if_false, List.tail_cons, ih (fun hm => h (List.mem_cons_of_mem _ hm)),
      List.length_cons]
    rfl

/-- Parsing a url assembled as scheme ++ "://" ++ base ++ '/' ++ token, the
shape that add returns: with a scheme free of colons, a base made of base
characters only (hence free of colons and slashes), already lower case and
passing validateBase, getUrlParts recovers exactly these components. -/
theorem getUrlParts_built (sch B tok : List Char)
    (hne : sch ≠ []) (hcolon : ':' ∉ sch) (hlow : lowerStr sch = sch)
    (hchars : ∀ c ∈ B, isBaseChar c = true)
    (hV : validateBase B = true) (hBl : lowerStr B = B) (hBne : B ≠ []) :
    getUrlParts (sch ++ sepStr ++ (B ++ '/' :: tok)) =
      some { scheme := sch, base := B, domain := B, rest := some ('/' :: tok),
             baseRest := B ++ '/' :: lowerStr tok } := by
  have hslash : '/' ∉ B := by
    intro hm
    have h1 := hchars '/' hm
    have h2 : isBaseChar '/' = false := by decide
    rw [h2] at h1
    cases h1
  have hBcolon : ':' ∉ B := by
    intro hm
    have h1 := hchars ':' hm
    have h2 : isBaseChar ':' = false := by decide
    rw [h2] at h1
    cases h1
  obtain ⟨b, B', rfl⟩ := List.exists_cons_of_ne_nil hBne
  have hbne : ¬ (b = '/') := by
    intro he
    have h1 := hchars b (List.mem_cons_self _ _)
    rw [he] at h1
    have h2 : isBaseChar '/' = false := by decide
    rw [h2] at h1
    cases h1
  have hlen3 : (sch ++ sepStr).length = sch.length + 3 := by
    simp [sepStr]
  have hlenNe : ¬ ((sch ++ sepStr ++ ((b :: B') ++ '/' :: tok)).length = sch.length + 3) := by
    simp only [List.length_append, hlen3, List.length_cons]
    omega
  have hget : (sch ++ sepStr ++ ((b :: B') ++ '/' :: tok)).get? (sch.length + 3) = some b := by
    rw [← hlen3, List.get?_append_right (Nat.le_refl _)]
    simp
  have htake : (sch ++ sepStr ++ ((b :: B') ++ '/' :: tok)).take sch.length = sch := by
    rw [List.append_assoc]
    exact List.take_left sch _
  have hdrop : (sch ++ sepStr ++ ((b :: B') ++ '/' :: tok)).drop (sch.length + 3) =
      (b :: B') ++ '/' :: tok := by
    rw [← hlen3, List.drop_left]
  have hidx1 : idxOf? '/' ((b :: B') ++ '/' :: tok) = some (b :: B').length :=
    idxOf?_append_cons tok hslash
  have htake1 : ((b :: B') ++ '/' :: tok).take (b :: B').length = b :: B' :=
    List.take_left _ _
  have hdrop1 : ((b :: B') ++ '/' :: tok).drop (b :: B').length = '/' :: tok :=
    List.drop_left _ _
  have hlowAfter : lowerStr ((b :: B') ++ '/' :: tok) = (b :: B') ++ '/' :: lowerStr tok := by
    rw [lowerStr_append, hBl, lowerStr_cons]
    have : Char.toLower '/' = '/' := by decide
    rw [this]
  have hidx2 : idxOf? ':' (b :: B') = none := idxOf?_eq_none hBcolon
  simp only [getUrlParts, indexOfSub_sep_concat sch _ hcolon,
    if_neg (fun h0 => hne (List.length_eq_zero.mp h0)), if_neg hlenNe,
    hget, Option.some.injEq, if_neg hbne, htake, hdrop, hidx1, htake1, hdrop1,
    hlow, hBl, hV, Bool.not_true, Bool.false_eq_true, if_false, hlowAfter,
    hidx2, Option.getD_none, List.take_length, if_neg hbne]

/-- The two schemes accepted for engine urls, ready for getUrlParts_built. -/
theorem parseUrl_built (sch B tok : List Char)
    (hs : httpScheme sch = true)
    (hchars : ∀ c ∈ B, isBaseChar c = true)
    (hV : validateBase B = true) (hBl : lowerStr B = B) (hBne : B ≠ []) :
    parseUrl httpScheme (sch ++ sepStr ++ (B ++ '/' :: tok)) =
      some { scheme := sch, base := B, domain := B, rest := some ('/' :: tok),
             baseRest := B ++ '/' :: lowerStr tok } := by
  have hcases : sch = "http".data ∨ sch = "https".data := by
    simpa [httpScheme] using hs
  rcases hcases with rfl | rfl <;>
    rw [parseUrl, getUrlParts_built _ _ tok (by decide) (by decide) (by decide)
      hchars hV hBl hBne] <;> simp [httpScheme]

/-- A successful parseUrl certifies its scheme. -/
theorem parseUrl_allowed {allowed : List Char → Bool} {url : List Char} {p : UrlParts}
    (hp : parseUrl allowed url = some p) : allowed p.scheme = true := by
  cases hq : getUrlParts url with
  | none =>
    simp only [parseUrl, hq] at hp
    exact Option.noConfusion hp
  | some q =>
    simp only [parseUrl, hq] at hp
    by_cases ha : allowed q.scheme = true
    · rw [if_pos ha] at hp
      injection hp with h
      subst h
      exact ha
    · rw [if_neg ha] at hp
      exact Option.noConfusion hp

/-- A key absent from a first block of documents is looked up in the rest. -/
theorem findDb_append {key : List Char} {s₁ s₂ : Store}
    (h : findDb key s₁ = none) : findDb key (s₁ ++ s₂) = findDb key s₂ := by
  unfold findDb at *
  induction s₁ with
  | nil => simp
  | cons a s₁ ih =>
    rw [List.find?_cons] at h
    cases hpa : (decide (a.longUrl = key) || decide (a.shortUrl = key)) with
    | true => rw [hpa] at h; cases h
    | false =>
      rw [hpa] at h
      rw [List.cons_append, List.find?_cons, hpa]
      exact ih h

/-- Appending a fresh longUrl keeps the one-association-per-longUrl shape. -/
theorem uniq_append_new {s : Store} {a : Assoc} (hu : uniqLong s)
    (hnew : ∀ b ∈ s, ¬ (b.longUrl = a.longUrl)) : uniqLong (s ++ [a]) := by
  unfold uniqLong at *
  rw [List.map_append]
  refine List.Nodup.append hu (List.nodup_singleton _) ?_
  intro x hx hy
  obtain ⟨b, hb, rfl⟩ := List.mem_map.mp hx
  simp only [List.map_cons, List.map_nil, List.mem_singleton] at hy
  exact hnew b hb hy

/-- Rewriting documents without touching their longUrl keys keeps the
one-association-per-longUrl shape. -/
theorem uniq_updateFirst {s : Store} {p : Assoc → Bool} {f : Assoc → Assoc}
    (h : ∀ a, (f a).longUrl = a.longUrl) (hu : uniqLong s) :
    uniqLong (updateFirst p f s) := by
  unfold uniqLong at *
  rw [updateFirst_map _ _ _ h]
  exact hu

end Lemmas

theorem specValidLabel_eq_validLabel : specValidLabel = validLabel := rfl

/-- Claim C7, counterexample: validateBase accepts the base a.com:80x even
though its port suffix 80x does not parse as an integer, because JS parseInt
reads the digit prefix 80 and ignores the trailing x. -/
theorem validateBase_port_counterexample :
    validateBase "a.com:80x".data = true ∧ specValidBase "a.com:80x".data = false := by
  decide

/-- Claim C7 as amended: validateBase accepts a base exactly when every
dot-separated label of the host passes the label test, any port suffix
yields, under JS parseInt (digit prefix after optional whitespace, sign and
0x prefix), a value in [1, 65535], and the total length is below 254. -/
theorem validateBase_iff_amended (b : List Char) :
    validateBase b = true ↔ amendedValidBase b = true := by
  unfold validateBase amendedValidBase
  rw [specValidLabel_eq_validLabel]
  cases hi : idxOf? ':' b with
  | none =>
    simp only [hi, Bool.and_eq_true]
    tauto
  | some i =>
    cases hj : jsParseInt (b.drop (i + 1)) with
    | none => simp [hi, hj]
    | some n =>
      simp only [hi, hj, Bool.and_eq_true, decide_eq_true_eq]
      constructor
      · rintro ⟨⟨⟨h1, h2⟩, h3⟩, h4⟩
        exact ⟨⟨h3, ⟨h1, by omega⟩⟩, h4⟩
      · rintro ⟨⟨h3, h1, h2⟩, h4⟩
        exact ⟨⟨⟨h1, by omega⟩, h3⟩, h4⟩

/-- Claim C4: query, count and deactivate only ever return structured
results, but add does not: on a url whose domain equals the shortener base it
calls the nonexistent method this.setErrMsg and the TypeError escapes, shown
here on the concrete input http://short.ly/x against base short.ly. -/
theorem ops_structured_add_domain_throws :
    (∀ B u s, ¬ ((queryOp B u s).1 = Res.thrown)) ∧
    (∀ B u s, ¬ ((countOp B u s).1 = Res.thrown)) ∧
    (∀ B u s, ¬ ((deactivateOp B u s).1 = Res.thrown)) ∧
    addOp "short.ly".data "t".data "http://short.ly/x".data [] = (Res.thrown, []) := by
  refine ⟨?_, ?_, ?_, by decide⟩
  · intro B u s
    unfold queryOp
    cases hp : parseUrl httpScheme u with
    | none => simp [hp]
    | some p =>
      by_cases hd : p.domain = B
      · simp only [hp, hd, not_true_eq_false, if_false]
        cases hf : findDb p.baseRest s with
        | none => simp [hf]
        | some r => by_cases ha : r.active <;> simp [hf, ha]
      · simp [hp, hd]
  · intro B u s
    unfold countOp
    cases hp : parseUrl httpScheme u with
    | none => simp [hp]
    | some p =>
      cases hf : findDb p.baseRest s with
      | none => simp [hp, hf]
      | some r => simp [hp, hf]
  · intro B u s
    unfold deactivateOp
    cases hp : parseUrl httpScheme u with
    | none => simp [hp]
    | some p =>
      cases hf : findDb p.baseRest s with
      | none => simp [hp, hf]
      | some r => simp [hp, hf]

/-- Claim C9, failing input: in the text go http://a- now the match
http://a- fails base validation, so add returns an error object rather than
throwing; doTextShorten only guards against thrown errors, reads the
undefined value property of the error object, and splices the string
undefined into the output instead of keeping the original substring. -/
theorem translate_error_match_becomes_undefined :
    translateOp "short.ly".data false "go http://a- now".data [] ["t1".data] =
      ("go undefined now".data, []) ∧
    ¬ ("go undefined now".data = "go http://a- now".data) := by
  decide

/-- Claim C2, counterexample: adding the mixed-case url
http://EXAMPLE.com/Page and querying the returned short url yields the
lower-cased normalization http://example.com/page, not the exact original
input string. -/
theorem roundtrip_counterexample :
    (addOp "short.ly".data "t1".data "http://EXAMPLE.com/Page".data []).1 =
      Res.value "http://short.ly/t1".data ∧
    (queryOp "short.ly".data "http://short.ly/t1".data
      (addOp "short.ly".data "t1".data "http://EXAMPLE.com/Page".data []).2).1 =
      Res.value "http://example.com/page".data ∧
    ¬ ("http://example.com/page".data = "http://EXAMPLE.com/Page".data) := by
  decide

/-- Claim C10, counterexample: http://a.com and https://a.com differ in their
scheme, not merely in letter case, yet the second add finds the association
keyed by the scheme-less baseRest a.com, creates nothing new (the store stays
at one association) and returns the first token t1 instead of a fresh one. -/
theorem add_scheme_dropped_counterexample :
    ((addOp "short.ly".data "t2".data "https://a.com".data
        (addOp "short.ly".data "t1".data "http://a.com".data []).2).2).length = 1 ∧
    (addOp "short.ly".data "t2".data "https://a.com".data
        (addOp "short.ly".data "t1".data "http://a.com".data []).2).1 =
      Res.value "https://short.ly/t1".data ∧
    ¬ ("http://a.com".data = "https://a.com".data) ∧
    ¬ (lowerStr "http://a.com".data = lowerStr "https://a.com".data) := by
  decide

/-- Claim C8: for a url that parses, query fails with DOMAIN exactly when
the parsed domain differs from the shortener base; but on the add side the
intended symmetric check never produces a DOMAIN error value, because the
domain-equal branch calls the nonexistent this.setErrMsg and throws. -/
theorem query_domain_iff_and_add_throws (B u tok : List Char) (p : UrlParts)
    (s : Store) (hp : parseUrl httpScheme u = some p) :
    ((queryOp B u s).1 = Res.err eDom ↔ ¬ (p.domain = B)) ∧
    (p.domain = B → addOp B tok u s = (Res.thrown, s)) := by
  constructor
  · by_cases hd : p.domain = B
    · have hne : ¬ ((Res.err eNF) = Res.err eDom) := by decide
      unfold queryOp
      simp only [hp, hd, not_true_eq_false, if_false]
      cases hf : findDb p.baseRest s with
      | none => simp [hf, hne, hd]
      | some r =>
        by_cases ha : r.active
        · simp [hf, ha, hd]
        · simp [hf, ha, hne, hd]
    · unfold queryOp
      simp [hp, hd]
  · intro hd
    unfold addOp
    simp [hp, hd]

theorem query_domain_iff_and_add_throws_witness :
    ((queryOp "short.ly".data "http://a.com".data []).1 = Res.err eDom ↔
      ¬ (("a.com".data : List Char) = "short.ly".data)) ∧
    (("a.com".data : List Char) = "short.ly".data →
      addOp "short.ly".data "t".data "http://a.com".data [] = (Res.thrown, [])) :=
  query_domain_iff_and_add_throws "short.ly".data "http://a.com".data "t".data
    ⟨"http".data, "a.com".data, "a.com".data, none, "a.com".data⟩ [] (by decide)

/-- Claim C10 as amended: the association key is the lower-cased base plus
path with the scheme dropped, so two valid long urls produce two distinct
associations, with the two independently supplied tokens, exactly when their
lower-cased base-plus-path parts differ (and the first short url does not
collide with the second key). -/
theorem add_distinct_baseRest_two_assocs (B t1 t2 L1 L2 : List Char)
    (p1 p2 : UrlParts)
    (h1 : parseUrl httpScheme L1 = some p1) (h2 : parseUrl httpScheme L2 = some p2)
    (hd1 : ¬ (p1.domain = B)) (hd2 : ¬ (p2.domain = B))
    (hkey : ¬ (p1.baseRest = p2.baseRest))
    (hshort : ¬ ((B ++ '/' :: t1) = p2.baseRest)) :
    (addOp B t2 L2 (addOp B t1 L1 []).2).2 =
      [{ longUrl := p1.baseRest, shortUrl := B ++ '/' :: t1, active := true, queries := 0 },
       { longUrl := p2.baseRest, shortUrl := B ++ '/' :: t2, active := true, queries := 0 }] := by
  have hstep1 : addOp B t1 L1 [] =
      (Res.value (p1.scheme ++ sepStr ++ (B ++ '/' :: t1)),
       [{ longUrl := p1.baseRest, shortUrl := B ++ '/' :: t1, active := true, queries := 0 }]) := by
    unfold addOp
    simp [h1, hd1, findDb]
  have hfind : findDb p2.baseRest
      [{ longUrl := p1.baseRest, shortUrl := B ++ '/' :: t1, active := true, queries := 0 }] = none := by
    unfold findDb
    simp [List.find?, hkey, hshort]
  rw [hstep1]
  unfold addOp
  simp [h2, hd2, hfind]

theorem add_distinct_baseRest_two_assocs_witness :
    (addOp "short.ly".data "t2".data "http://b.com".data
        (addOp "short.ly".data "t1".data "http://a.com".data []).2).2 =
      [{ longUrl := "a.com".data, shortUrl := "short.ly".data ++ '/' :: "t1".data,
         active := true, queries := 0 },
       { longUrl := "b.com".data, shortUrl := "short.ly".data ++ '/' :: "t2".data,
         active := true, queries := 0 }] :=
  add_distinct_baseRest_two_assocs "short.ly".data "t1".data "t2".data
    "http://a.com".data "http://b.com".data
    ⟨"http".data, "a.com".data, "a.com".data, none, "a.com".data⟩
    ⟨"http".data, "b.com".data, "b.com".data, none, "b.com".data⟩
    (by decide) (by decide) (by decide) (by decide) (by decide) (by decide)

/-- Claim C2 as amended: for a fresh valid long url whose domain differs from
the shortener base, add succeeds and an immediate query of its returned short
url succeeds, but it returns the lower-cased normalization of the long url
(scheme lower-cased, base and path lower-cased), which equals the original
input exactly when that input is already lower case; the shortener base must
itself be lower case, made of base characters only (hence portless), and the
token fresh for the store. -/
theorem add_query_roundtrip_normalized (B tok L : List Char) (p : UrlParts) (s : Store)
    (hp : parseUrl httpScheme L = some p)
    (hdom : ¬ (p.domain = B))
    (hfresh : findDb p.baseRest s = none)
    (hchars : ∀ c ∈ B, isBaseChar c = true)
    (hV : validateBase B = true) (hBl : lowerStr B = B) (hBne : B ≠ [])
    (htok : lowerStr tok = tok)
    (hfresh2 : findDb (B ++ '/' :: tok) s = none) :
    addOp B tok L s =
      (Res.value (p.scheme ++ sepStr ++ (B ++ '/' :: tok)),
       s ++ [{ longUrl := p.baseRest, shortUrl := B ++ '/' :: tok,
               active := true, queries := 0 }]) ∧
    (queryOp B (p.scheme ++ sepStr ++ (B ++ '/' :: tok))
        (s ++ [{ longUrl := p.baseRest, shortUrl := B ++ '/' :: tok,
                 active := true, queries := 0 }])).1 =
      Res.value (p.scheme ++ sepStr ++ p.baseRest) := by
  have hs : httpScheme p.scheme = true := parseUrl_allowed hp
  constructor
  · unfold addOp
    simp [hp, hdom, hfresh]
  · have hpb := parseUrl_built p.scheme B tok hs hchars hV hBl hBne
    rw [htok] at hpb
    rw [List.append_assoc] at hpb
    have hfind : findDb (B ++ '/' :: tok)
        (s ++ [{ longUrl := p.baseRest, shortUrl := B ++ '/' :: tok,
                 active := true, queries := 0 }]) =
        some { longUrl := p.baseRest, shortUrl := B ++ '/' :: tok,
               active := true, queries := 0 } := by
      rw [findDb_append hfresh2]
      unfold findDb
      simp [List.find?]
    unfold queryOp
    simp [hpb, hfind]

theorem add_query_roundtrip_normalized_witness :
    addOp "short.ly".data "t1".data "http://a.com/p".data [] =
      (Res.value ("http".data ++ sepStr ++ ("short.ly".data ++ '/' :: "t1".data)),
       [] ++ [{ longUrl := "a.com/p".data,
                shortUrl := "short.ly".data ++ '/' :: "t1".data,
                active := true, queries := 0 }]) ∧
    (queryOp "short.ly".data ("http".data ++ sepStr ++ ("short.ly".data ++ '/' :: "t1".data))
        ([] ++ [{ longUrl := "a.com/p".data,
                  shortUrl := "short.ly".data ++ '/' :: "t1".data,
                  active := true, queries := 0 }])).1 =
      Res.value ("http".data ++ sepStr ++ "a.com/p".data) :=
  add_query_roundtrip_normalized "short.ly".data "t1".data "http://a.com/p".data
    ⟨"http".data, "a.com".data, "a.com".data, some ("/p".data), "a.com/p".data⟩ []
    (by decide) (by decide) (by decide) (by decide) (by decide) (by decide)
    (by decide) (by decide) (by decide)

/-- Claim C3: deactivating a registered short url succeeds (also when the
association is already inactive, and deactivating again still succeeds),
after which query fails NOT_FOUND while count still returns the queries
counter unchanged from before the deactivation; deactivating a url whose key
matches nothing fails NOT_FOUND. -/
theorem deactivate_then_query_count (B S : List Char) (p : UrlParts) (s : Store)
    (r : Assoc)
    (hp : parseUrl httpScheme S = some p) (hdom : p.domain = B)
    (hfound : findDb p.baseRest s = some r) :
    (deactivateOp B S s).1 = Res.empty ∧
    (queryOp B S (deactivateOp B S s).2).1 = Res.err eNF ∧
    (countOp B S (deactivateOp B S s).2).1 = Res.num r.queries ∧
    (countOp B S s).1 = Res.num r.queries ∧
    (deactivateOp B S (deactivateOp B S s).2).1 = Res.empty ∧
    (∀ u2 s2 p2, parseUrl httpScheme u2 = some p2 → findDb p2.baseRest s2 = none →
      deactivateOp B u2 s2 = (Res.err eNF, s2)) := by
  have hfind : s.find?
      (fun a => decide (a.longUrl = p.baseRest) || decide (a.shortUrl = p.baseRest)) =
      some r := hfound
  obtain ⟨pre, post, hsplit, hpre, hup⟩ :=
    find?_decomp (fun a => { a with active := false }) hfind
  have hpredr := List.find?_some hfind
  have hde : deactivateOp B S s = (Res.empty, pre ++ { r with active := false } :: post) := by
    unfold deactivateOp
    simp only [hp, hfound]
    rw [hup]
  have hfind2 : findDb p.baseRest (pre ++ { r with active := false } :: post) =
      some { r with active := false } :=
    find?_middle hpre hpredr
  refine ⟨by rw [hde], ?_, ?_, ?_, ?_, ?_⟩
  · rw [hde]
    unfold queryOp
    simp [hp, hdom, hfind2]
  · rw [hde]
    unfold countOp
    simp [hp, hfind2]
  · unfold countOp
    simp [hp, hfound]
  · rw [hde]
    unfold deactivateOp
    simp [hp, hfind2]
  · intro u2 s2 p2 h2 hn
    unfold deactivateOp
    simp [h2, hn]

theorem deactivate_then_query_count_witness :
    (queryOp "short.ly".data "http://short.ly/t1".data
      (deactivateOp "short.ly".data "http://short.ly/t1".data
        [{ longUrl := "a.com".data, shortUrl := "short.ly/t1".data,
           active := true, queries := 7 }]).2).1 = Res.err eNF ∧
    (countOp "short.ly".data "http://short.ly/t1".data
      (deactivateOp "short.ly".data "http://short.ly/t1".data
        [{ longUrl := "a.com".data, shortUrl := "short.ly/t1".data,
           active := true, queries := 7 }]).2).1 = Res.num 7 :=
  have h := deactivate_then_query_count "short.ly".data "http://short.ly/t1".data
    ⟨"http".data, "short.ly".data, "short.ly".data, some ("/t1".data), "short.ly/t1".data⟩
    [{ longUrl := "a.com".data, shortUrl := "short.ly/t1".data,
       active := true, queries := 7 }]
    { longUrl := "a.com".data, shortUrl := "short.ly/t1".data,
      active := true, queries := 7 }
    (by decide) (by decide) (by decide)
  ⟨h.2.1, h.2.2.1⟩

/-- Claim C5: count leaves the store untouched; deactivate leaves every
stored queries counter unchanged; add leaves every stored counter unchanged,
at most appending one fresh document with counter 0 (so reactivation never
resets a counter); and query either changes nothing while returning no value,
or returns a value and increments exactly one stored counter by exactly
one. -/
theorem queries_only_query_increments (B tok : List Char) :
    (∀ u s, (countOp B u s).2 = s) ∧
    (∀ u s, (deactivateOp B u s).2.map (fun a => a.queries) =
            s.map (fun a => a.queries)) ∧
    (∀ u s, (addOp B tok u s).2.map (fun a => a.queries) = s.map (fun a => a.queries) ∨
            (addOp B tok u s).2.map (fun a => a.queries) =
              s.map (fun a => a.queries) ++ [0]) ∧
    (∀ u s, ((queryOp B u s).2 = s ∧ ∀ v, ¬ ((queryOp B u s).1 = Res.value v)) ∨
            (∃ v pre n post, (queryOp B u s).1 = Res.value v ∧
              s.map (fun a => a.queries) = pre ++ n :: post ∧
              (queryOp B u s).2.map (fun a => a.queries) = pre ++ (n + 1) :: post)) := by
  refine ⟨?_, ?_, ?_, ?_⟩
  · intro u s
    unfold countOp
    cases hp : parseUrl httpScheme u with
    | none => simp [hp]
    | some p =>
      cases hf : findDb p.baseRest s with
      | none => simp [hp, hf]
      | some r => simp [hp, hf]
  · intro u s
    cases hp : parseUrl httpScheme u with
    | none => simp [deactivateOp, hp]
    | some p =>
      cases hf : findDb p.baseRest s with
      | none => simp [deactivateOp, hp, hf]
      | some r =>
        have hst : (deactivateOp B u s).2 =
            updateFirst (fun a => decide (a = r)) (fun a => { a with active := false }) s := by
          unfold deactivateOp
          simp [hp, hf]
        rw [hst]
        exact updateFirst_map (fun a => a.queries)
          (fun a => decide (a = r)) (fun a => { a with active := false }) (fun a => rfl) s
  · intro u s
    cases hp : parseUrl httpScheme u with
    | none => left; simp [addOp, hp]
    | some p =>
      by_cases hd : p.domain = B
      · left; simp [addOp, hp, hd]
      · cases hf : findDb p.baseRest s with
        | some r =>
          left
          have hst : (addOp B tok u s).2 =
              updateFirst (fun a => decide (a = r)) (fun a => { a with active := true }) s := by
            unfold addOp
            simp [hp, hd, hf]
          rw [hst]
          exact updateFirst_map (fun a => a.queries)
            (fun a => decide (a = r)) (fun a => { a with active := true }) (fun a => rfl) s
        | none =>
          right
          simp [addOp, hp, hd, hf]
  · intro u s
    cases hp : parseUrl httpScheme u with
    | none =>
      left
      exact ⟨by simp [queryOp, hp], fun v => by simp [queryOp, hp]⟩
    | some p =>
      by_cases hd : p.domain = B
      · cases hf : findDb p.baseRest s with
        | none =>
          left
          exact ⟨by simp [queryOp, hp, hd, hf], fun v => by simp [queryOp, hp, hd, hf]⟩
        | some r =>
          by_cases ha : r.active
          · right
            have hfind : s.find?
                (fun a => decide (a.longUrl = p.baseRest) ||
                  decide (a.shortUrl = p.baseRest)) = some r := hf
            obtain ⟨pre, post, hsplit, hpre, hup⟩ :=
              find?_decomp (fun a => { a with queries := a.queries + 1 }) hfind
            have hq : queryOp B u s =
                (Res.value (p.scheme ++ sepStr ++ r.longUrl),
                 pre ++ { r with queries := r.queries + 1 } :: post) := by
              unfold queryOp
              simp only [hp, hd, eq_self_iff_true, not_true, if_false, hf, ha,
                Bool.not_true, Bool.false_eq_true]
              rw [hup]
              simp [ha]
            refine ⟨p.scheme ++ sepStr ++ r.longUrl, pre.map (fun a => a.queries),
              r.queries, post.map (fun a => a.queries), by rw [hq], ?_, ?_⟩
            · rw [hsplit]; simp
            · rw [hq]; simp
          · left
            exact ⟨by simp [queryOp, hp, hd, hf, ha],
              fun v => by simp [queryOp, hp, hd, hf, ha]⟩
      · left
        exact ⟨by simp [queryOp, hp, hd], fun v => by simp [queryOp, hp, hd]⟩

/-- Claim C1: re-adding an already-stored long url (active or not) rewrites
that association in place with active set to true and returns the stored
short url, creating nothing new: the store keeps its length and its exact
longUrl/shortUrl pairs.  Since the stored pairs are preserved, the returned
short url is the one the first add stored and returned.  In addition every
operation preserves the invariant that longUrl keys are pairwise distinct,
add included, because it only inserts when neither key matches. -/
theorem add_readd_reactivates (B tok L : List Char) (p : UrlParts) (s : Store)
    (r : Assoc)
    (hp : parseUrl httpScheme L = some p) (hdom : ¬ (p.domain = B))
    (hfound : findDb p.baseRest s = some r) (hkey : r.longUrl = p.baseRest) :
    (∃ pre post, s = pre ++ r :: post ∧
       addOp B tok L s =
         (Res.value (p.scheme ++ sepStr ++ r.shortUrl),
          pre ++ { longUrl := p.baseRest, shortUrl := r.shortUrl, active := true,
                   queries := r.queries } :: post)) ∧
    (addOp B tok L s).2.length = s.length ∧
    (addOp B tok L s).2.map (fun a => (a.longUrl, a.shortUrl)) =
      s.map (fun a => (a.longUrl, a.shortUrl)) ∧
    (∀ B2 t2 u2 s2, uniqLong s2 → uniqLong (addOp B2 t2 u2 s2).2) ∧
    (∀ B2 u2 s2, uniqLong s2 → uniqLong (queryOp B2 u2 s2).2) ∧
    (∀ B2 u2 s2, uniqLong s2 → uniqLong (countOp B2 u2 s2).2) ∧
    (∀ B2 u2 s2, uniqLong s2 → uniqLong (deactivateOp B2 u2 s2).2) := by
  have hfind : s.find?
      (fun a => decide (a.longUrl = p.baseRest) || decide (a.shortUrl = p.baseRest)) =
      some r := hfound
  obtain ⟨pre, post, hsplit, hpre, hup⟩ :=
    find?_decomp (fun a => { a with active := true }) hfind
  have hadd : addOp B tok L s =
      (Res.value (p.scheme ++ sepStr ++ r.shortUrl),
       pre ++ { r with active := true } :: post) := by
    unfold addOp
    simp only [hp, hdom, if_neg hdom, hfound]
    rw [hup]
    simp
  refine ⟨⟨pre, post, hsplit, ?_⟩, ?_, ?_, ?_, ?_, ?_, ?_⟩
  · rw [hadd, ← hkey]
  · rw [hadd, hsplit]
    simp
  · rw [hadd, hsplit]
    simp
  · intro B2 t2 u2 s2 hu
    cases hp2 : parseUrl httpScheme u2 with
    | none =>
      have hst : (addOp B2 t2 u2 s2).2 = s2 := by simp [addOp, hp2]
      rw [hst]; exact hu
    | some q =>
      by_cases hd2 : q.domain = B2
      · have hst : (addOp B2 t2 u2 s2).2 = s2 := by simp [addOp, hp2, hd2]
        rw [hst]; exact hu
      · cases hf2 : findDb q.baseRest s2 with
        | some r2 =>
          have hst : (addOp B2 t2 u2 s2).2 =
              updateFirst (fun a => decide (a = r2))
                (fun a => { a with active := true }) s2 := by
            unfold addOp
            simp [hp2, hd2, hf2]
          rw [hst]
          exact uniq_updateFirst (fun a => rfl) hu
        | none =>
          have hst : (addOp B2 t2 u2 s2).2 =
              s2 ++ [{ longUrl := q.baseRest, shortUrl := B2 ++ '/' :: t2,
                       active := true, queries := 0 }] := by
            unfold addOp
            simp [hp2, hd2, hf2]
          rw [hst]
          refine uniq_append_new hu ?_
          intro b hb he
          have hno := List.find?_eq_none.mp hf2 b hb
          apply hno
          simp [he]
  · intro B2 u2 s2 hu
    cases hp2 : parseUrl httpScheme u2 with
    | none =>
      have hst : (queryOp B2 u2 s2).2 = s2 := by simp [queryOp, hp2]
      rw [hst]; exact hu
    | some q =>
      by_cases hd2 : q.domain = B2
      · cases hf2 : findDb q.baseRest s2 with
        | none =>
          have hst : (queryOp B2 u2 s2).2 = s2 := by simp [queryOp, hp2, hd2, hf2]
          rw [hst]; exact hu
        | some r2 =>
          by_cases ha2 : r2.active
          · have hst : (queryOp B2 u2 s2).2 =
                updateFirst (fun a => decide (a = r2))
                  (fun a => { a with queries := a.queries + 1 }) s2 := by
              unfold queryOp
              simp [hp2, hd2, hf2, ha2]
            rw [hst]
            exact uniq_updateFirst (fun a => rfl) hu
          · have hst : (queryOp B2 u2 s2).2 = s2 := by
              simp [queryOp, hp2, hd2, hf2, ha2]
            rw [hst]; exact hu
      · have hst : (queryOp B2 u2 s2).2 = s2 := by simp [queryOp, hp2, hd2]
        rw [hst]; exact hu
  · intro B2 u2 s2 hu
    cases hp2 : parseUrl httpScheme u2 with
    | none =>
      have hst : (countOp B2 u2 s2).2 = s2 := by simp [countOp, hp2]
      rw [hst]; exact hu
    | some q =>
      cases hf2 : findDb q.baseRest s2 with
      | none =>
        have hst : (countOp B2 u2 s2).2 = s2 := by simp [countOp, hp2, hf2]
        rw [hst]; exact hu
      | some r2 =>
        have hst : (countOp B2 u2 s2).2 = s2 := by simp [countOp, hp2, hf2]
        rw [hst]; exact hu
  · intro B2 u2 s2 hu
    cases hp2 : parseUrl httpScheme u2 with
    | none =>
      have hst : (deactivateOp B2 u2 s2).2 = s2 := by simp [deactivateOp, hp2]
      rw [hst]; exact hu
    | some q =>
      cases hf2 : findDb q.baseRest s2 with
      | none =>
        have hst : (deactivateOp B2 u2 s2).2 = s2 := by simp [deactivateOp, hp2, hf2]
        rw [hst]; exact hu
      | some r2 =>
        have hst : (deactivateOp B2 u2 s2).2 =
            updateFirst (fun a => decide (a = r2))
              (fun a => { a with active := false }) s2 := by
          unfold deactivateOp
          simp [hp2, hf2]
        rw [hst]
        exact uniq_updateFirst (fun a => rfl) hu

theorem add_readd_reactivates_witness :
    (addOp "short.ly".data "t9".data "http://a.com".data
      [{ longUrl := "a.com".data, shortUrl := "short.ly/t1".data,
         active := false, queries := 5 }]).2.length =
    ([{ longUrl := "a.com".data, shortUrl := "short.ly/t1".data,
        active := false, queries := 5 }] : Store).length :=
  (add_readd_reactivates "short.ly".data "t9".data "http://a.com".data
    ⟨"http".data, "a.com".data, "a.com".data, none, "a.com".data⟩
    [{ longUrl := "a.com".data, shortUrl := "short.ly/t1".data,
       active := false, queries := 5 }]
    { longUrl := "a.com".data, shortUrl := "short.ly/t1".data,
      active := false, queries := 5 }
    (by decide) (by decide) (by decide) (by decide)).2.1

/-- Claim C6: for any allowed-scheme set that rejects the empty scheme (as
the anchored regexes for http/https and mongodb both do), parsing fails with
URL_SYNTAX exactly under the spec's enumeration: no separator, nothing after
the separator, a slash immediately after it, a scheme outside the allowed
set, or a base failing validation. -/
theorem parse_none_iff_specSyntaxFail (allowed : List Char → Bool) (url : List Char)
    (hempty : allowed [] = false) :
    parseUrl allowed url = none ↔ specSyntaxFail allowed url = true := by
  unfold parseUrl getUrlParts specSyntaxFail specBaseOf
  cases hidx : indexOfSub sepStr url with
  | none => simp [hidx]
  | some idx =>
    by_cases h0 : idx = 0
    · subst h0
      simp [hidx, lowerStr, hempty]
    · by_cases hL : url.length = idx + 3
      · simp [hidx, h0, hL]
      · by_cases hS : url[idx + 3]? = some '/'
        · simp [hidx, h0, hL, hS]
        · cases h1 : idxOf? '/' (url.drop (idx + 3)) with
          | none =>
            by_cases hv : validateBase (lowerStr (url.drop (idx + 3)))
              <;> by_cases ha : allowed (lowerStr (url.take idx))
              <;> simp [hidx, h0, hL, hS, h1, hv, ha]
          | some i1 =>
            by_cases hv : validateBase (lowerStr ((url.drop (idx + 3)).take i1))
              <;> by_cases ha : allowed (lowerStr (url.take idx))
              <;> simp [hidx, h0, hL, hS, h1, hv, ha]

theorem parse_none_iff_specSyntaxFail_witness :
    parseUrl httpScheme "not-a-url".data = none ↔
      specSyntaxFail httpScheme "not-a-url".data = true :=
  parse_none_iff_specSyntaxFail httpScheme "not-a-url".data (by decide)

theorem ops_structured_add_domain_throws_witness :
    ¬ ((queryOp "short.ly".data "http://a.com".data []).1 = Res.thrown) :=
  ops_structured_add_domain_throws.1 "short.ly".data "http://a.com".data []

theorem queries_only_query_increments_witness :
    (countOp "short.ly".data "http://a.com".data
      [{ longUrl := "a.com".data, shortUrl := "short.ly/t1".data,
         active := true, queries := 3 }]).2 =
      [{ longUrl := "a.com".data, shortUrl := "short.ly/t1".data,
         active := true, queries := 3 }] :=
  (queries_only_query_increments "short.ly".data "t".data).1 "http://a.com".data
    [{ longUrl := "a.com".data, shortUrl := "short.ly/t1".data,
       active := true, queries := 3 }]

theorem validateBase_iff_amended_witness :
    validateBase "a.com:8080".data = true ↔ amendedValidBase "a.com:8080".data = true :=
  validateBase_iff_amended ("a.com:8080".data)

end UrlShort
